import Mathlib

/-!
Shallow embedding of the cannibalization analyzer (src/app.py) and proofs
about its aggregation pipeline and winner-selection rule.

Numeric cells are modelled as rationals; pandas row labels become list
positions. Presentation-only code (Streamlit layout, charts, Excel export)
is outside the embedding. Where pandas rounds half to even, the embedding
rounds half up; no statement below rests on a tie at the third decimal.
-/

namespace App

/-- A raw input row after column discovery (app.py lines 60-69): the four
text columns and the four metric cells, a metric cell being none when it is
missing or unparsable. -/
structure RawRec where
  term : String
  campaign : String
  adGroup : String
  matchType : String
  orders : Option ℚ
  sales : Option ℚ
  spend : Option ℚ
  clicks : Option ℚ
deriving Inhabited, DecidableEq

/-- A record after numeric cleaning (app.py lines 72-73). -/
structure Record where
  term : String
  campaign : String
  adGroup : String
  matchType : String
  orders : ℚ
  sales : ℚ
  spend : ℚ
  clicks : ℚ
deriving Inhabited, DecidableEq

/-- Numeric cleaning, app.py lines 72-73: pd.to_numeric with coercion then
fillna(0), so a missing or unparsable metric cell becomes 0. -/
def normalize (r : RawRec) : Record :=
  { term := r.term, campaign := r.campaign, adGroup := r.adGroup, matchType := r.matchType
  , orders := r.orders.getD 0, sales := r.sales.getD 0
  , spend := r.spend.getD 0, clicks := r.clicks.getD 0 }

/-- The groupby key of app.py line 89: (search term, campaign, ad group,
raw match-type text). -/
def recKey (r : Record) : String × String × String × String :=
  (r.term, r.campaign, r.adGroup, r.matchType)

/-- Sum of one metric over the records sharing a groupby key
(app.py lines 89-91, agg sum). -/
def sumBy (rows : List Record) (k : String × String × String × String) (m : Record → ℚ) : ℚ :=
  ((rows.filter (fun r => recKey r = k)).map m).sum

/-- Series.replace(0, 0.01) applied to the spend column on app.py line 98. -/
def spendRep (s : ℚ) : ℚ := if s = 0 then 1 / 100 else s

/-- Rounding to 2 decimal places (pandas .round(2), Python round(x, 2)). -/
def round2 (x : ℚ) : ℚ := (round (x * 100) : ℚ) / 100

/-- One row of df_agg: the key columns, the summed metrics, and the derived
ROAS column of app.py line 98. -/
structure Agg where
  term : String
  campaign : String
  adGroup : String
  matchType : String
  orders : ℚ
  sales : ℚ
  spend : ℚ
  clicks : ℚ
  roas : ℚ
deriving Inhabited, DecidableEq

/-- The df_agg row for one groupby key (app.py lines 89-98). -/
def mkAgg (rows : List Record) (k : String × String × String × String) : Agg :=
  { term := k.1, campaign := k.2.1, adGroup := k.2.2.1, matchType := k.2.2.2
  , orders := sumBy rows k (fun r => r.orders)
  , sales := sumBy rows k (fun r => r.sales)
  , spend := sumBy rows k (fun r => r.spend)
  , clicks := sumBy rows k (fun r => r.clicks)
  , roas := round2 (sumBy rows k (fun r => r.sales) / spendRep (sumBy rows k (fun r => r.spend))) }

/-- df.groupby([term, campaign, ad group, match type]).agg(sum) followed by
the ROAS column (app.py lines 89-98): one row per distinct key. Keys are
taken in deduplicated record order; pandas sorts them, but no claim below
depends on row order. -/
def aggregate (rows : List Record) : List Agg :=
  ((rows.map recKey).dedup).map (mkAgg rows)

/-- sales_df = df_agg[df_agg.Orders > 0] (app.py line 100). -/
def sales_df (aggs : List Agg) : List Agg := aggs.filter (fun a => 0 < a.orders)

/-- The sales_df rows carrying search term t: both the group whose size is
counted on app.py line 101 and the subset handed to determine_winner on
line 107. -/
def subsetFor (aggs : List Agg) (t : String) : List Agg :=
  (sales_df aggs).filter (fun a => a.term = t)

/-- cannibal_list (app.py lines 101-102): the search terms with more than
one sales_df row. -/
def cannibal_list (aggs : List Agg) : List String :=
  (((sales_df aggs).map (fun a => a.term)).dedup).filter (fun t => 1 < (subsetFor aggs t).length)

/-- First position attaining the maximum of f, paired with that maximum:
pandas Series.idxmax, whose ties go to the first row. The empty case is
unreachable (pandas raises there; every caller passes a nonempty frame). -/
def idxmaxVal (f : Agg → ℚ) : List Agg → Nat × ℚ
  | [] => (0, 0)
  | [a] => (0, f a)
  | a :: b :: rest =>
      if f a < (idxmaxVal f (b :: rest)).2 then
        ((idxmaxVal f (b :: rest)).1 + 1, (idxmaxVal f (b :: rest)).2)
      else
        (0, f a)

/-- Series.idxmax as used on app.py lines 19 and 21. -/
def idxmax (f : Agg → ℚ) (l : List Agg) : Nat := (idxmaxVal f l).1

/-- The winning reason of determine_winner; the efficient constructor keeps
the improvement ratio that app.py line 32 formats into its string. -/
inductive Reason where
  | bestSalesRoas
  | efficient (improvement : ℚ)
  | volumeLeader
deriving Inhabited, DecidableEq

/-- improvement (app.py line 29): relative ROAS gain of the ROAS leader over
the sales leader, with the 999 sentinel when the sales leader has no
positive ROAS. -/
def improvementOf (group : List Agg) : ℚ :=
  if 0 < (group.getD (idxmax (fun a => a.sales) group) default).roas then
    ((group.getD (idxmax (fun a => a.roas) group) default).roas
        - (group.getD (idxmax (fun a => a.sales) group) default).roas)
      / (group.getD (idxmax (fun a => a.sales) group) default).roas
  else 999

/-- determine_winner (app.py lines 18-34): the position of the kept row and
the winning reason. -/
def determine_winner (group : List Agg) (improvement_thresh min_orders : ℚ) : Nat × Reason :=
  if idxmax (fun a => a.sales) group = idxmax (fun a => a.roas) group then
    (idxmax (fun a => a.sales) group, Reason.bestSalesRoas)
  else if improvement_thresh / 100 ≤ improvementOf group
      ∧ min_orders ≤ (group.getD (idxmax (fun a => a.roas) group) default).orders then
    (idxmax (fun a => a.roas) group, Reason.efficient (improvementOf group))
  else
    (idxmax (fun a => a.sales) group, Reason.volumeLeader)

/-- Python int() on a numeric value: truncation toward zero
(app.py line 115). -/
def truncQ (x : ℚ) : ℤ := if 0 ≤ x then ⌊x⌋ else ⌈x⌉

/-- One output row of the final_results loop (app.py lines 111-118); keep
true stands for the KEEP action, keep false for NEGATE, and winningReason
none for the empty reason string. -/
structure DecisionRow where
  term : String
  campaign : String
  adGroup : String
  matchType : String
  orders : ℤ
  sales : ℚ
  spend : ℚ
  roas : ℚ
  keep : Bool
  winningReason : Option Reason
deriving Inhabited, DecidableEq

/-- The dictionary built on app.py lines 113-118 for the member at position
idx of the subset, given the winner position w and its reason. -/
def rowOut (w : Nat) (r : Reason) (t : String) (idx : Nat) (row : Agg) : DecisionRow :=
  { term := t, campaign := row.campaign, adGroup := row.adGroup, matchType := row.matchType
  , orders := truncQ row.orders, sales := round2 row.sales, spend := round2 row.spend
  , roas := round2 row.roas
  , keep := idx == w
  , winningReason := if idx == w then some r else none }

/-- The iterrows loop of app.py lines 111-118, carrying the running row
position. -/
def label (w : Nat) (r : Reason) (t : String) : List Agg → Nat → List DecisionRow
  | [], _ => []
  | row :: rest, idx => rowOut w r t idx row :: label w r t rest (idx + 1)

/-- The final_results rows contributed by one cannibalized term
(app.py lines 106-118). -/
def resultsFor (aggs : List Agg) (thresh mo : ℚ) (t : String) : List DecisionRow :=
  label (determine_winner (subsetFor aggs t) thresh mo).1
    (determine_winner (subsetFor aggs t) thresh mo).2 t (subsetFor aggs t) 0

/-- final_results (app.py lines 105-118): the decision rows of every
cannibalized term. -/
def final_results (aggs : List Agg) (thresh mo : ℚ) : List DecisionRow :=
  (cannibal_list aggs).flatMap (resultsFor aggs thresh mo)

/-- ASCII lowercasing of one character. -/
def lowerChar (c : Char) : Char :=
  if 65 ≤ c.toNat ∧ c.toNat ≤ 90 then Char.ofNat (c.toNat + 32) else c

/-- Does the first list occur as a contiguous block at the head of the
second one. -/
def beginsWith : List Char → List Char → Bool
  | [], _ => true
  | _ :: _, [] => false
  | a :: as, b :: bs => a == b && beginsWith as bs

/-- Does the first list occur as a contiguous block anywhere in the second
one. -/
def containsSub (needle : List Char) : List Char → Bool
  | [] => beginsWith needle []
  | c :: rest => beginsWith needle (c :: rest) || containsSub needle rest

/-- The match-type categories named by the spec. -/
inductive MatchCat where
  | exactCat
  | phraseCat
  | broadCat
  | autoOther
  | unknown
deriving Inhabited, DecidableEq

/-- Modelled from the spec: the spec describes a MatchTypeCategory derived
from the raw match-type text by case-insensitive substring match in the
priority order EXACT, PHRASE, BROAD, with AUTO/OTHER when none match and
UNKNOWN when the text is absent. No such derivation exists anywhere in
src/app.py; this definition follows the spec words only, to be compared
with the grouping the code actually performs. -/
def specMatchCategory : Option String → MatchCat
  | none => MatchCat.unknown
  | some s =>
      if containsSub "exact".toList (s.toList.map lowerChar) then MatchCat.exactCat
      else if containsSub "phrase".toList (s.toList.map lowerChar) then MatchCat.phraseCat
      else if containsSub "broad".toList (s.toList.map lowerChar) then MatchCat.broadCat
      else MatchCat.autoOther

/-- The key columns of an aggregated row. -/
def aggKey (a : Agg) : String × String × String × String :=
  (a.term, a.campaign, a.adGroup, a.matchType)

/-! ### Supporting lemmas -/

theorem idxmaxVal_fst_lt (f : Agg → ℚ) :
    (l : List Agg) → l ≠ [] → (idxmaxVal f l).1 < l.length
  | [], h => absurd rfl h
  | [a], _ => by simp [idxmaxVal]
  | a :: b :: rest, _ => by
      have ih := idxmaxVal_fst_lt f (b :: rest) (by simp)
      simp only [idxmaxVal, List.length_cons] at ih ⊢
      split
      · simpa using Nat.succ_lt_succ ih
      · simp

theorem determine_winner_fst_lt (group : List Agg) (th mo : ℚ) (h : group ≠ []) :
    (determine_winner group th mo).1 < group.length := by
  unfold determine_winner
  split
  · exact idxmaxVal_fst_lt _ group h
  · split
    · exact idxmaxVal_fst_lt _ group h
    · exact idxmaxVal_fst_lt _ group h

theorem label_length (w : Nat) (r : Reason) (t : String) :
    ∀ (l : List Agg) (idx : Nat), (label w r t l idx).length = l.length
  | [], _ => rfl
  | _ :: rest, idx => by simp [label, label_length w r t rest (idx + 1)]

theorem label_getD (w : Nat) (r : Reason) (t : String) :
    ∀ (l : List Agg) (idx i : Nat), i < l.length →
      (label w r t l idx).getD i default = rowOut w r t (idx + i) (l.getD i default)
  | [], _, i, h => by simp at h
  | _ :: _, _, 0, _ => by simp [label]
  | _ :: rest, idx, i + 1, h => by
      have ih := label_getD w r t rest (idx + 1) i (by simpa using h)
      have hshift : idx + 1 + i = idx + (i + 1) := by omega
      simpa [label, hshift] using ih

theorem label_keep_countP (w : Nat) (r : Reason) (t : String) :
    ∀ (l : List Agg) (idx : Nat),
      (label w r t l idx).countP (fun d => d.keep)
        = if idx ≤ w ∧ w < idx + l.length then 1 else 0
  | [], idx => by
      simp only [label, List.countP_nil, List.length_nil, Nat.add_zero]
      split
      · next h => omega
      · rfl
  | row :: rest, idx => by
      have ih := label_keep_countP w r t rest (idx + 1)
      have hkeep : (rowOut w r t idx row).keep = (idx == w) := rfl
      simp only [label, List.countP_cons, ih, List.length_cons, hkeep]
      by_cases hw : idx = w
      · have hb : (idx == w) = true := by simpa using hw
        rw [hb, if_pos rfl]
        split <;> split <;> omega
      · have hb : (idx == w) = false := by simpa using hw
        rw [hb, if_neg Bool.false_ne_true]
        split <;> split <;> omega

theorem label_negate_reason (w : Nat) (r : Reason) (t : String) :
    ∀ (l : List Agg) (idx : Nat) (d : DecisionRow),
      d ∈ label w r t l idx → d.keep = false → d.winningReason = none
  | [], _, d, hd, _ => absurd hd (List.not_mem_nil d)
  | _ :: rest, idx, d, hd, hk => by
      rcases List.mem_cons.mp hd with h | h
      · subst h
        have hb : (idx == w) = false := hk
        simp [rowOut, hb]
      · exact label_negate_reason w r t rest (idx + 1) d h hk

theorem round2_round2 (x : ℚ) : round2 (round2 x) = round2 x := by
  unfold round2
  rw [div_mul_cancel₀ _ (by norm_num : (100 : ℚ) ≠ 0), round_intCast]

/-! ### Claim theorems -/

/-- C3: in a group whose sales leader and ROAS leader are different members,
a ROAS leader whose orders fall strictly below min_orders never wins via the
efficiency branch: determine_winner returns the sales leader with reason
Volume Leader, whatever the threshold (and hence whatever the improvement). -/
theorem min_orders_gate (g : List Agg) (thresh mo : ℚ)
    (hne : idxmax (fun a => a.sales) g ≠ idxmax (fun a => a.roas) g)
    (hord : (g.getD (idxmax (fun a => a.roas) g) default).orders < mo) :
    determine_winner g thresh mo = (idxmax (fun a => a.sales) g, Reason.volumeLeader) := by
  unfold determine_winner
  rw [if_neg hne, if_neg (fun hc => (not_le.mpr hord) hc.2)]

/-- C4: determine_winner is antitone in the improvement threshold: for a
fixed group and fixed min_orders, if the outcome at a threshold t1 is
Volume Leader or Best Sales and ROAS, then the outcome at any larger
threshold t2 is identical; only an Efficient outcome can change, and only
into Volume Leader. -/
theorem threshold_antitone (g : List Agg) (mo t1 t2 : ℚ) (hlt : t1 < t2)
    (h : (determine_winner g t1 mo).2 = Reason.volumeLeader
       ∨ (determine_winner g t1 mo).2 = Reason.bestSalesRoas) :
    determine_winner g t2 mo = determine_winner g t1 mo := by
  unfold determine_winner at h ⊢
  by_cases hidx : idxmax (fun a => a.sales) g = idxmax (fun a => a.roas) g
  · rw [if_pos hidx, if_pos hidx]
  · simp only [if_neg hidx] at h ⊢
    by_cases hc : t1 / 100 ≤ improvementOf g
        ∧ mo ≤ (g.getD (idxmax (fun a => a.roas) g) default).orders
    · rw [if_pos hc] at h
      rcases h with h | h <;> simp at h
    · rw [if_neg hc]
      rw [if_neg (fun h2 => hc ⟨by linarith [h2.1], h2.2⟩)]

/-- C5: when the sales leader and the ROAS leader are the same member (both
idxmax calls return the same position, ties going to the first row),
determine_winner returns that member with reason Best Sales and ROAS, and
the post-processing labels exactly that member KEEP. -/
theorem trivial_agreement (g : List Agg) (t : String) (thresh mo : ℚ)
    (h2 : 2 ≤ g.length)
    (heq : idxmax (fun a => a.sales) g = idxmax (fun a => a.roas) g) :
    determine_winner g thresh mo = (idxmax (fun a => a.sales) g, Reason.bestSalesRoas) ∧
    ((label (determine_winner g thresh mo).1 (determine_winner g thresh mo).2 t g 0).getD
        (idxmax (fun a => a.sales) g) default).keep = true := by
  have hdw : determine_winner g thresh mo
      = (idxmax (fun a => a.sales) g, Reason.bestSalesRoas) := by
    unfold determine_winner
    rw [if_pos heq]
  have hne : g ≠ [] := by
    intro hg
    rw [hg] at h2
    simp at h2
  have hlt : idxmax (fun a => a.sales) g < g.length := idxmaxVal_fst_lt _ g hne
  refine ⟨hdw, ?_⟩
  simp only [hdw]
  rw [label_getD _ _ _ g 0 _ hlt]
  simp [rowOut]

/-- C6: when the sales leader and ROAS leader differ and the sales leader
has ROAS 0, the improvement is the sentinel 999, so for any threshold in
the configured range [30, 200] the ROAS leader wins with the Efficient
reason as soon as its orders reach min_orders. -/
theorem zero_roas_sentinel (g : List Agg) (thresh mo : ℚ)
    (hne : idxmax (fun a => a.sales) g ≠ idxmax (fun a => a.roas) g)
    (hz : (g.getD (idxmax (fun a => a.sales) g) default).roas = 0)
    (_hlo : 30 ≤ thresh) (ht2 : thresh ≤ 200)
    (hord : mo ≤ (g.getD (idxmax (fun a => a.roas) g) default).orders) :
    determine_winner g thresh mo = (idxmax (fun a => a.roas) g, Reason.efficient 999) := by
  have himp : improvementOf g = 999 := by
    unfold improvementOf
    rw [hz]
    norm_num
  unfold determine_winner
  rw [if_neg hne, himp, if_pos ⟨by linarith, hord⟩]

/-- C1: for every cannibalized term the post-processing labels exactly one
row KEEP, namely the row at the position determine_winner returns, which is
a valid position of the group; every other row is NEGATE with no reason. -/
theorem exactly_one_keep (aggs : List Agg) (thresh mo : ℚ) (t : String)
    (ht : t ∈ cannibal_list aggs) :
    (determine_winner (subsetFor aggs t) thresh mo).1 < (subsetFor aggs t).length ∧
    (resultsFor aggs thresh mo t).countP (fun d => d.keep) = 1 ∧
    ((resultsFor aggs thresh mo t).getD (determine_winner (subsetFor aggs t) thresh mo).1
        default).keep = true ∧
    ∀ d ∈ resultsFor aggs thresh mo t, d.keep = false → d.winningReason = none := by
  have hlen : 1 < (subsetFor aggs t).length := by
    have h2 := (List.mem_filter.mp ht).2
    simpa using h2
  have hne : subsetFor aggs t ≠ [] := by
    intro hnil
    rw [hnil] at hlen
    simp at hlen
  have hw := determine_winner_fst_lt (subsetFor aggs t) thresh mo hne
  refine ⟨hw, ?_, ?_, ?_⟩
  · unfold resultsFor
    rw [label_keep_countP, if_pos ⟨Nat.zero_le _, by omega⟩]
  · unfold resultsFor
    rw [label_getD _ _ _ _ 0 _ hw]
    simp [rowOut]
  · intro d hd hk
    exact label_negate_reason _ _ _ _ _ d hd hk

/-- The aggregated rows are exactly the mkAgg images of the deduplicated
record keys. -/
theorem mem_aggregate (rows : List Record) (a : Agg) (ha : a ∈ aggregate rows) :
    ∃ k, k ∈ (rows.map recKey).dedup ∧ mkAgg rows k = a := by
  simpa [aggregate] using ha

/-- Input of the C2 counterexample: one record with sales 2 and spend 0. -/
def c2Rows : List Record := [⟨"kw a", "camp", "adg", "exact", 1, 2, 0, 1⟩]

/-- C2 counterexample: the aggregated row of the single input record has
spend 0 yet ROAS 200 = round2(2 / 0.01), not 0: line 98 replaces a zero
spend by 0.01 instead of defining the ratio to be 0. -/
theorem zero_spend_counterexample :
    mkAgg c2Rows ("kw a", "camp", "adg", "exact") ∈ aggregate c2Rows ∧
    (mkAgg c2Rows ("kw a", "camp", "adg", "exact")).spend = 0 ∧
    (mkAgg c2Rows ("kw a", "camp", "adg", "exact")).roas = 200 := by
  refine ⟨by simp [aggregate, c2Rows, recKey], ?_, ?_⟩
  · simp [mkAgg, sumBy, c2Rows, recKey]
  · norm_num [mkAgg, sumBy, c2Rows, recKey, spendRep, round2, round_eq]

/-- C2 amended: the ROAS computation never divides by zero, because a zero
spend is replaced by 0.01 before dividing; consequently a row with spend 0
has ROAS round2(sales × 100) rather than the constant 0. -/
theorem zero_spend_amended (rows : List Record) (a : Agg) (ha : a ∈ aggregate rows) :
    a.roas = round2 (a.sales / spendRep a.spend) ∧
    spendRep a.spend ≠ 0 ∧
    (a.spend = 0 → a.roas = round2 (a.sales * 100)) := by
  obtain ⟨k, -, rfl⟩ := mem_aggregate rows a ha
  refine ⟨rfl, ?_, ?_⟩
  · unfold spendRep
    split
    · norm_num
    · next h => exact h
  · intro h0
    have h0sum : sumBy rows k (fun r => r.spend) = 0 := h0
    show round2 (sumBy rows k (fun r => r.sales)
        / spendRep (sumBy rows k (fun r => r.spend))) = _
    rw [h0sum]
    have hrep : spendRep 0 = 1 / 100 := by simp [spendRep]
    rw [hrep]
    congr 1
    rw [div_eq_mul_inv, one_div, inv_inv]
    rfl

/-- Input of the C7 counterexample: two aggregated rows of the same term in
the same campaign and ad group, differing only in match type. -/
def c7Aggs : List Agg :=
  [⟨"kw", "camp", "adg", "exact", 1, 10, 5, 2, 2⟩,
   ⟨"kw", "camp", "adg", "broad", 1, 8, 4, 2, 2⟩]

/-- C7 counterexample: every filtered row of the term kw lies in the single
(campaign, ad group) pair (camp, adg), yet the detector reports kw, because
lines 100-102 count aggregated rows — which are also split by match type —
not distinct (campaign, ad group) pairs. -/
theorem dupe_rows_counterexample :
    "kw" ∈ cannibal_list c7Aggs ∧
    ((((sales_df c7Aggs).filter (fun a => a.term = "kw")).map
        (fun a => (a.campaign, a.adGroup))).dedup).length = 1 := by
  constructor
  · norm_num [cannibal_list, sales_df, subsetFor, c7Aggs]
  · norm_num [sales_df, c7Aggs, List.dedup_cons_of_mem]

/-- C7 amended: the detector reports exactly the search terms having more
than one aggregated row with positive orders; since aggregated rows are per
(campaign, ad group, match type), a term whose rows all share one
(campaign, ad group) pair can still be reported when its match types
differ. -/
theorem dupe_rows_amended (aggs : List Agg) (t : String) :
    t ∈ cannibal_list aggs ↔ 1 < (subsetFor aggs t).length := by
  unfold cannibal_list
  rw [List.mem_filter]
  constructor
  · rintro ⟨-, h⟩
    simpa using h
  · intro h
    refine ⟨?_, by simpa using h⟩
    rw [List.mem_dedup]
    have hne : subsetFor aggs t ≠ [] := by
      intro hnil
      rw [hnil] at h
      simp at h
    obtain ⟨a, ha⟩ := List.exists_mem_of_ne_nil _ hne
    have hmem := List.mem_filter.mp ha
    refine List.mem_map.mpr ⟨a, hmem.1, ?_⟩
    simpa using hmem.2

theorem sum_map_add {α : Type} (f g : α → ℚ) :
    ∀ (l : List α), (l.map (fun x => f x + g x)).sum = (l.map f).sum + (l.map g).sum
  | [] => by simp
  | a :: l => by
      simp [sum_map_add f g l]
      ring

theorem sum_map_ite_zero {κ : Type} [DecidableEq κ] (a : κ) (c : ℚ) :
    ∀ (ks : List κ), ks.Nodup → a ∈ ks →
      (ks.map (fun k => if a = k then c else 0)).sum = c
  | [], _, ha => absurd ha (List.not_mem_nil a)
  | k :: ks, hnd, ha => by
      rcases List.mem_cons.mp ha with h | h
      · subst h
        have hnot : a ∉ ks := (List.nodup_cons.mp hnd).1
        have hz : (ks.map (fun k2 => if a = k2 then c else 0)).sum = 0 := by
          apply List.sum_eq_zero
          intro x hx
          obtain ⟨k2, hk2, rfl⟩ := List.mem_map.mp hx
          rw [if_neg]
          intro heq
          exact hnot (heq ▸ hk2)
        simp [hz]
      · have hne : a ≠ k := by
          rintro rfl
          exact (List.nodup_cons.mp hnd).1 h
        have ih := sum_map_ite_zero a c ks (List.nodup_cons.mp hnd).2 h
        simp [if_neg hne, ih]

theorem sum_fiber {α κ : Type} [DecidableEq κ] (key : α → κ) (m : α → ℚ) (ks : List κ)
    (hnd : ks.Nodup) :
    ∀ (rows : List α), (∀ r ∈ rows, key r ∈ ks) →
      (ks.map (fun k => ((rows.filter (fun r => key r = k)).map m).sum)).sum
        = (rows.map m).sum
  | [], _ => by simp
  | r :: rest, hcov => by
      have ih := sum_fiber key m ks hnd rest (fun x hx => hcov x (List.mem_cons_of_mem _ hx))
      have hmem : key r ∈ ks := hcov r (List.mem_cons_self r rest)
      have hstep : ∀ k : κ, (((r :: rest).filter (fun x => key x = k)).map m).sum
          = (if key r = k then m r else 0)
            + ((rest.filter (fun x => key x = k)).map m).sum := by
        intro k
        by_cases h : key r = k
        · simp [List.filter_cons, h]
        · simp [List.filter_cons, h]
      calc (ks.map (fun k => (((r :: rest).filter (fun x => key x = k)).map m).sum)).sum
          = (ks.map (fun k => (if key r = k then m r else 0)
              + ((rest.filter (fun x => key x = k)).map m).sum)).sum := by
            simp only [hstep]
        _ = (ks.map (fun k => if key r = k then m r else 0)).sum
              + (ks.map (fun k => ((rest.filter (fun x => key x = k)).map m).sum)).sum :=
            sum_map_add _ _ ks
        _ = m r + (rest.map m).sum := by
            rw [ih]
            congr 1
            exact sum_map_ite_zero (key r) (m r) ks hnd hmem
        _ = ((r :: rest).map m).sum := by simp

/-- Summing a per-key aggregated metric over all aggregated rows gives the
sum of that metric over all records. -/
theorem aggregate_sum_eq (rows : List Record) (ma : Agg → ℚ) (m : Record → ℚ)
    (hm : ∀ k, ma (mkAgg rows k) = sumBy rows k m) :
    ((aggregate rows).map ma).sum = (rows.map m).sum := by
  unfold aggregate
  rw [List.map_map]
  have hfun : (ma ∘ mkAgg rows) = fun k => sumBy rows k m := funext hm
  rw [hfun]
  exact sum_fiber recKey m ((rows.map recKey).dedup) (List.nodup_dedup _) rows
    (fun r hr => List.mem_dedup.mpr (List.mem_map_of_mem _ hr))

/-- C8: conservation under aggregation: for every input dataset the sum of
each metric (orders, sales, spend, clicks) over the aggregated rows equals
its sum over the normalized raw records. -/
theorem conservation (raws : List RawRec) :
    ((aggregate (raws.map normalize)).map (fun a => a.orders)).sum
        = ((raws.map normalize).map (fun r => r.orders)).sum ∧
    ((aggregate (raws.map normalize)).map (fun a => a.sales)).sum
        = ((raws.map normalize).map (fun r => r.sales)).sum ∧
    ((aggregate (raws.map normalize)).map (fun a => a.spend)).sum
        = ((raws.map normalize).map (fun r => r.spend)).sum ∧
    ((aggregate (raws.map normalize)).map (fun a => a.clicks)).sum
        = ((raws.map normalize).map (fun r => r.clicks)).sum := by
  refine ⟨?_, ?_, ?_, ?_⟩ <;> exact aggregate_sum_eq _ _ _ (fun k => rfl)

/-- Input of the C9 counterexample: two records identical in every key
column except the case of the match-type text. -/
def c9Rows : List Record :=
  [⟨"kw", "camp", "adg", "exact", 1, 10, 5, 2⟩,
   ⟨"kw", "camp", "adg", "EXACT", 1, 8, 4, 2⟩]

/-- C9 counterexample: the spec category of both records is EXACT, and a
grouping by (term, campaign, ad group, category) would hold one key, but the
code groups by the raw match-type text and yields two aggregated rows: no
case-insensitive category derivation exists in the code. -/
theorem match_category_counterexample :
    specMatchCategory (some "exact") = MatchCat.exactCat ∧
    specMatchCategory (some "EXACT") = MatchCat.exactCat ∧
    (aggregate c9Rows).length = 2 ∧
    ((c9Rows.map (fun r => (r.term, r.campaign, r.adGroup,
        specMatchCategory (some r.matchType)))).dedup).length = 1 := by
  refine ⟨?_, ?_, ?_, ?_⟩
  · simp [specMatchCategory, containsSub, beginsWith, lowerChar]
  · simp [specMatchCategory, containsSub, beginsWith, lowerChar]
  · simp [aggregate, c9Rows, recKey]
  · simp [c9Rows, specMatchCategory, containsSub, beginsWith, lowerChar,
      List.dedup_cons_of_mem]

/-- C9 amended: the aggregation groups by the raw match-type text verbatim:
the aggregated rows carry pairwise distinct raw keys, every aggregated row
key comes from some record, and every record key is represented, so records
whose match-type texts differ only in case land in different rows. -/
theorem raw_match_grouping (rows : List Record) :
    ((aggregate rows).map aggKey).Nodup ∧
    (∀ a ∈ aggregate rows, ∃ r ∈ rows, recKey r = aggKey a) ∧
    (∀ r ∈ rows, ∃ a ∈ aggregate rows, aggKey a = recKey r) := by
  have hmap : (aggregate rows).map aggKey = (rows.map recKey).dedup := by
    unfold aggregate
    rw [List.map_map]
    have hid : (aggKey ∘ mkAgg rows) = id := funext fun k => rfl
    rw [hid, List.map_id]
  refine ⟨hmap ▸ List.nodup_dedup _, ?_, ?_⟩
  · intro a ha
    have hk : aggKey a ∈ (rows.map recKey).dedup := by
      rw [← hmap]
      exact List.mem_map_of_mem _ ha
    obtain ⟨r, hr, hrk⟩ := List.mem_map.mp (List.mem_dedup.mp hk)
    exact ⟨r, hr, hrk⟩
  · intro r hr
    have hk : recKey r ∈ (aggregate rows).map aggKey := by
      rw [hmap]
      exact List.mem_dedup.mpr (List.mem_map_of_mem _ hr)
    obtain ⟨a, ha, hak⟩ := List.mem_map.mp hk
    exact ⟨a, ha, hak⟩

/-- C10: every output decision row carries the truncation of the orders of
its group member and the 2-decimal roundings of the sales, spend and ROAS
of that member; the aggregation already rounded ROAS, so the output ROAS is
the member ROAS unchanged. The post-processing is a pure function of the
aggregated rows, which it reads and never alters. -/
theorem output_values (rows : List Record) (thresh mo : ℚ) (t : String) (i : Nat)
    (hi : i < (subsetFor (aggregate rows) t).length) :
    ((resultsFor (aggregate rows) thresh mo t).getD i default).orders
        = truncQ (((subsetFor (aggregate rows) t).getD i default).orders) ∧
    ((resultsFor (aggregate rows) thresh mo t).getD i default).sales
        = round2 (((subsetFor (aggregate rows) t).getD i default).sales) ∧
    ((resultsFor (aggregate rows) thresh mo t).getD i default).spend
        = round2 (((subsetFor (aggregate rows) t).getD i default).spend) ∧
    ((resultsFor (aggregate rows) thresh mo t).getD i default).roas
        = round2 (((subsetFor (aggregate rows) t).getD i default).roas) ∧
    ((resultsFor (aggregate rows) thresh mo t).getD i default).roas
        = ((subsetFor (aggregate rows) t).getD i default).roas := by
  have hlab : (resultsFor (aggregate rows) thresh mo t).getD i default
      = rowOut (determine_winner (subsetFor (aggregate rows) t) thresh mo).1
          (determine_winner (subsetFor (aggregate rows) t) thresh mo).2 t (0 + i)
          ((subsetFor (aggregate rows) t).getD i default) := by
    unfold resultsFor
    exact label_getD _ _ _ _ 0 i hi
  have hmem : (subsetFor (aggregate rows) t).getD i default ∈ aggregate rows := by
    have h1 : (subsetFor (aggregate rows) t).getD i default
        ∈ subsetFor (aggregate rows) t := by
      rw [List.getD_eq_getElem _ _ hi]
      exact List.getElem_mem hi
    have h2 := (List.mem_filter.mp h1).1
    exact (List.mem_filter.mp h2).1
  obtain ⟨k, -, hk⟩ := mem_aggregate rows _ hmem
  refine ⟨?_, ?_, ?_, ?_, ?_⟩
  · rw [hlab]
    rfl
  · rw [hlab]
    rfl
  · rw [hlab]
    rfl
  · rw [hlab]
    rfl
  · rw [hlab]
    show round2 (((subsetFor (aggregate rows) t).getD i default).roas) = _
    rw [← hk]
    show round2 (round2 (sumBy rows k (fun r => r.sales)
        / spendRep (sumBy rows k (fun r => r.spend))))
      = round2 (sumBy rows k (fun r => r.sales)
        / spendRep (sumBy rows k (fun r => r.spend)))
    exact round2_round2 _

/-! ### Concrete witnesses -/

/-- Concrete aggregated rows of the C1 witness: one term in two ad groups,
both with positive orders. -/
def c1Aggs : List Agg :=
  [⟨"kw", "camp a", "adg a", "exact", 1, 10, 5, 2, 2⟩,
   ⟨"kw", "camp b", "adg b", "exact", 2, 8, 4, 2, 2⟩]

/-- C1 witness at the concrete two-row group. -/
theorem exactly_one_keep_witness :
    "kw" ∈ cannibal_list c1Aggs ∧
    ((determine_winner (subsetFor c1Aggs "kw") 100 2).1 < (subsetFor c1Aggs "kw").length ∧
     (resultsFor c1Aggs 100 2 "kw").countP (fun d => d.keep) = 1 ∧
     ((resultsFor c1Aggs 100 2 "kw").getD
        (determine_winner (subsetFor c1Aggs "kw") 100 2).1 default).keep = true ∧
     ∀ d ∈ resultsFor c1Aggs 100 2 "kw", d.keep = false → d.winningReason = none) :=
  ⟨by norm_num [cannibal_list, sales_df, subsetFor, c1Aggs],
   exactly_one_keep c1Aggs 100 2 "kw"
     (by norm_num [cannibal_list, sales_df, subsetFor, c1Aggs])⟩

/-- C2 witness: the amended statement evaluated at the zero-spend row. -/
theorem zero_spend_amended_witness :
    mkAgg c2Rows ("kw a", "camp", "adg", "exact") ∈ aggregate c2Rows ∧
    ((mkAgg c2Rows ("kw a", "camp", "adg", "exact")).roas
        = round2 ((mkAgg c2Rows ("kw a", "camp", "adg", "exact")).sales
            / spendRep (mkAgg c2Rows ("kw a", "camp", "adg", "exact")).spend) ∧
     spendRep (mkAgg c2Rows ("kw a", "camp", "adg", "exact")).spend ≠ 0 ∧
     ((mkAgg c2Rows ("kw a", "camp", "adg", "exact")).spend = 0 →
        (mkAgg c2Rows ("kw a", "camp", "adg", "exact")).roas
          = round2 ((mkAgg c2Rows ("kw a", "camp", "adg", "exact")).sales * 100))) :=
  ⟨by simp [aggregate, c2Rows, recKey],
   zero_spend_amended c2Rows _ (by simp [aggregate, c2Rows, recKey])⟩

/-- Concrete group of the C3 witness: the sales leader is row 0, the ROAS
leader is row 1 with a single order. -/
def c3Group : List Agg :=
  [⟨"kw", "camp a", "adg a", "exact", 5, 100, 50, 10, 2⟩,
   ⟨"kw", "camp b", "adg b", "exact", 1, 40, 10, 4, 4⟩]

/-- C3 witness: with min_orders 2 the ROAS leader (1 order) cannot win even
though its improvement is 100 percent. -/
theorem min_orders_gate_witness :
    idxmax (fun a => a.sales) c3Group ≠ idxmax (fun a => a.roas) c3Group ∧
    (c3Group.getD (idxmax (fun a => a.roas) c3Group) default).orders < 2 ∧
    determine_winner c3Group 100 2
      = (idxmax (fun a => a.sales) c3Group, Reason.volumeLeader) :=
  ⟨by norm_num [idxmax, idxmaxVal, c3Group],
   by norm_num [idxmax, idxmaxVal, c3Group],
   min_orders_gate c3Group 100 2
     (by norm_num [idxmax, idxmaxVal, c3Group])
     (by norm_num [idxmax, idxmaxVal, c3Group])⟩

/-- Concrete group of the C4 witness; at threshold 50 the outcome is
Volume Leader because the ROAS leader has too few orders. -/
def c4Group : List Agg :=
  [⟨"kw", "camp a", "adg a", "exact", 5, 100, 50, 10, 2⟩,
   ⟨"kw", "camp b", "adg b", "exact", 1, 40, 10, 4, 4⟩]

/-- C4 witness: raising the threshold from 50 to 100 leaves the
Volume Leader outcome unchanged. -/
theorem threshold_antitone_witness :
    (50 : ℚ) < 100 ∧
    ((determine_winner c4Group 50 2).2 = Reason.volumeLeader
      ∨ (determine_winner c4Group 50 2).2 = Reason.bestSalesRoas) ∧
    determine_winner c4Group 100 2 = determine_winner c4Group 50 2 :=
  ⟨by norm_num,
   Or.inl (by norm_num [determine_winner, idxmax, idxmaxVal, improvementOf, c4Group]),
   threshold_antitone c4Group 2 50 100 (by norm_num)
     (Or.inl (by norm_num [determine_winner, idxmax, idxmaxVal, improvementOf, c4Group]))⟩

/-- Concrete group of the C5 witness: row 0 leads both sales and ROAS. -/
def c5Group : List Agg :=
  [⟨"kw", "camp a", "adg a", "exact", 5, 100, 50, 10, 4⟩,
   ⟨"kw", "camp b", "adg b", "exact", 3, 40, 10, 4, 2⟩]

/-- C5 witness at the concrete two-row group. -/
theorem trivial_agreement_witness :
    2 ≤ c5Group.length ∧
    idxmax (fun a => a.sales) c5Group = idxmax (fun a => a.roas) c5Group ∧
    (determine_winner c5Group 100 2
        = (idxmax (fun a => a.sales) c5Group, Reason.bestSalesRoas) ∧
     ((label (determine_winner c5Group 100 2).1 (determine_winner c5Group 100 2).2 "kw"
          c5Group 0).getD (idxmax (fun a => a.sales) c5Group) default).keep = true) :=
  ⟨by norm_num [c5Group],
   by norm_num [idxmax, idxmaxVal, c5Group],
   trivial_agreement c5Group "kw" 100 2 (by norm_num [c5Group])
     (by norm_num [idxmax, idxmaxVal, c5Group])⟩

/-- Concrete group of the C6 witness: the sales leader has ROAS 0, the ROAS
leader has 3 orders. -/
def c6Group : List Agg :=
  [⟨"kw", "camp a", "adg a", "exact", 5, 100, 1000, 10, 0⟩,
   ⟨"kw", "camp b", "adg b", "exact", 3, 40, 10, 4, 2⟩]

/-- C6 witness: at threshold 100 and min_orders 2 the ROAS leader wins with
the sentinel improvement 999. -/
theorem zero_roas_sentinel_witness :
    idxmax (fun a => a.sales) c6Group ≠ idxmax (fun a => a.roas) c6Group ∧
    (c6Group.getD (idxmax (fun a => a.sales) c6Group) default).roas = 0 ∧
    (30 : ℚ) ≤ 100 ∧ (100 : ℚ) ≤ 200 ∧
    (2 : ℚ) ≤ (c6Group.getD (idxmax (fun a => a.roas) c6Group) default).orders ∧
    determine_winner c6Group 100 2
      = (idxmax (fun a => a.roas) c6Group, Reason.efficient 999) :=
  ⟨by norm_num [idxmax, idxmaxVal, c6Group],
   by norm_num [idxmax, idxmaxVal, c6Group],
   by norm_num,
   by norm_num,
   by norm_num [idxmax, idxmaxVal, c6Group],
   zero_roas_sentinel c6Group 100 2
     (by norm_num [idxmax, idxmaxVal, c6Group])
     (by norm_num [idxmax, idxmaxVal, c6Group])
     (by norm_num)
     (by norm_num)
     (by norm_num [idxmax, idxmaxVal, c6Group])⟩

/-- Concrete input of the C10 witness: a single record, hence one aggregated
row with positive orders for the term kw. -/
def c10Rows : List Record := [⟨"kw", "camp", "adg", "exact", 1, 2, 3, 1⟩]

/-- C10 witness at position 0 of the concrete subset. -/
theorem output_values_witness :
    0 < (subsetFor (aggregate c10Rows) "kw").length ∧
    (((resultsFor (aggregate c10Rows) 100 2 "kw").getD 0 default).orders
        = truncQ (((subsetFor (aggregate c10Rows) "kw").getD 0 default).orders) ∧
     ((resultsFor (aggregate c10Rows) 100 2 "kw").getD 0 default).sales
        = round2 (((subsetFor (aggregate c10Rows) "kw").getD 0 default).sales) ∧
     ((resultsFor (aggregate c10Rows) 100 2 "kw").getD 0 default).spend
        = round2 (((subsetFor (aggregate c10Rows) "kw").getD 0 default).spend) ∧
     ((resultsFor (aggregate c10Rows) 100 2 "kw").getD 0 default).roas
        = round2 (((subsetFor (aggregate c10Rows) "kw").getD 0 default).roas) ∧
     ((resultsFor (aggregate c10Rows) 100 2 "kw").getD 0 default).roas
        = ((subsetFor (aggregate c10Rows) "kw").getD 0 default).roas) :=
  ⟨by simp [subsetFor, sales_df, aggregate, c10Rows, recKey, mkAgg, sumBy],
   output_values c10Rows 100 2 "kw" 0
     (by simp [subsetFor, sales_df, aggregate, c10Rows, recKey, mkAgg, sumBy])⟩

end App
